import Mathlib

/-!
Verification of `scripts/replace_console.py`, a codemod that rewrites
`console.log/error/warn` calls into structured `logger` calls and inserts a
logger import when missing.

The script is embedded shallowly: file contents are `List Char`, the regex
substitutions of `re.subn` are modelled by a deterministic left-to-right
scanner (each of the eight patterns is deterministic: the `[^']+` group is a
maximal run of non-quote characters, and `\s*` is a maximal run of whitespace
followed by the literal `error);`, so no backtracking can produce a different
match), and the external `grep -c` / `find` invocations are modelled by pure
oracles.  Whitespace (`\s`) and `str.strip` are modelled for ASCII text.
-/

namespace ReplaceConsole

/-- File contents and paths are plain lists of characters. -/
abbrev Str := List Char

/-- Shorthand turning a string literal into its character list. -/
def str (x : String) : Str := x.data

/-- ASCII whitespace, as matched by Python's `\s` and stripped by `str.strip`
on ASCII text. -/
def isPySpace (c : Char) : Bool :=
  c = ' ' || c = '\t' || c = '\n' || c = '\r' || c = '\x0b' || c = '\x0c'

/-- Python `str.strip()`: remove leading and trailing whitespace. -/
def pyStrip (cs : Str) : Str :=
  ((cs.dropWhile isPySpace).reverse.dropWhile isPySpace).reverse

/-- Substring test: does `pat` occur contiguously inside `hay`?
Models Python's `in` operator on strings. -/
def containsStr (pat : Str) : Str → Bool
  | [] => pat.isEmpty
  | c :: cs => pat.isPrefixOf (c :: cs) || containsStr pat cs

/-- Consume the literal `pat` from the front of `cs`, returning the rest. -/
def dropLit : Str → Str → Option Str
  | [], cs => some cs
  | _ :: _, [] => none
  | p :: ps, c :: cs => if c = p then dropLit ps cs else none

/-- Split a string at newline characters; models Python's `split("\n")`
(`splitOnNl [] = [[]]`, mirroring `"".split("\n") == [""]`). -/
def splitOnNl : Str → List Str
  | [] => [[]]
  | c :: cs =>
    if c = '\n' then [] :: splitOnNl cs
    else (c :: (splitOnNl cs).headI) :: (splitOnNl cs).tail

/-- Join lines with newline characters (inverse of `splitOnNl`). -/
def joinNl : List Str → Str
  | [] => []
  | [l] => l
  | l :: ls => l ++ '\n' :: joinNl ls

/-- Does a line match the anchored pattern `^const .+ = require\(.+\);$`?
Because the pattern is anchored on both sides and `.` does not cross
newlines, a `re.MULTILINE` match of this pattern is exactly a full line of
the shape `const ` ++ a ++ ` = require(` ++ b ++ `);` with `a`, `b`
nonempty. -/
def isRequireLine (l : Str) : Bool :=
  (str "const ").isPrefixOf l &&
  (str ");").isSuffixOf l &&
  (let core := (l.drop 6).take (l.length - 8)
   (List.range core.length).any (fun i =>
     decide (1 ≤ i) && (str " = require(").isPrefixOf (core.drop i) &&
     decide (i + 11 < core.length)))

/-- Index of the last line satisfying `isRequireLine`; models the position of
the last `re.finditer` match of the anchored require pattern (whose `end()`
is the end of that line). -/
def lastRequireIdx : List Str → Option Nat
  | [] => none
  | l :: rest =>
    match lastRequireIdx rest with
    | some i => some (i + 1)
    | none => if isRequireLine l then some 0 else none

/-- `"../" * (filepath.count("/") - 1) + "utils/logger"`.  Python's negative
repeat count yields the empty string, matching `Nat` truncated subtraction. -/
def loggerPath (filepath : Str) : Str :=
  let depth := filepath.count '/' - 1
  (List.replicate depth (str "../")).flatten ++ str "utils/logger"

/-- The single-quoted logger reference the script checks for. -/
def checkSq : Str := str "require('../../utils/logger')"

/-- The double-quoted logger reference the script checks for. -/
def checkDq : Str := str "require(\"../../utils/logger\")"

/-- `add_logger_import(content, filepath)`: if either logger reference is
already present, return the content unchanged with flag `False`; otherwise
insert `\nconst logger = require('<loggerPath>');` directly after the end of
the last line matching `^const .+ = require\(.+\);$` (flag `True`), or
return the content unchanged with flag `False` if no line matches.
Inserting a new list element after line `i` and re-joining with newlines is
exactly the source's string insertion at `last_match.end()`. -/
def add_logger_import (content filepath : Str) : Str × Bool :=
  if containsStr checkSq content || containsStr checkDq content then
    (content, false)
  else
    let lines := splitOnNl content
    match lastRequireIdx lines with
    | none => (content, false)
    | some i =>
      let newLine := str "const logger = require('" ++ loggerPath filepath ++ str "');"
      (joinNl (lines.take (i + 1) ++ newLine :: lines.drop (i + 1)), true)

/-- A pattern matcher: at the head of the input, either fail or return the
captured message group together with the input remaining after the match. -/
abbrev Matcher := Str → Option (Str × Str)

/-- Matcher for one fixed call shape
`pre ⬝ ([^q]+) ⬝ tail1 ⬝ (\s* if ws) ⬝ tail2` anchored at the head of the
input: the literal `pre` (ending in the opening quote `q`), a nonempty
maximal run of non-`q` characters (the captured group), the literal `tail1`,
optionally a maximal whitespace run, and the literal `tail2`.  Maximal-munch
is equivalent to the regex here because `[^q]+` can only stop at a `q` and
`tail2` (`error);`) starts with a non-space character. -/
def matchShape (pre : Str) (q : Char) (tail1 : Str) (ws : Bool) (tail2 : Str) :
    Matcher := fun cs =>
  match dropLit pre cs with
  | none => none
  | some r1 =>
    let msg := r1.takeWhile (fun c => c != q)
    let r2 := r1.dropWhile (fun c => c != q)
    if msg.isEmpty then none
    else
      match dropLit tail1 r2 with
      | none => none
      | some r3 =>
        let r4 := if ws then r3.dropWhile isPySpace else r3
        match dropLit tail2 r4 with
        | none => none
        | some r5 => some (msg, r5)

/-- Rule 1 matcher: `console\.error\('([^']+)',\s*error\);`. -/
def mErr1 : Matcher := matchShape (str "console.error('") '\'' (str "',") true (str "error);")

/-- Rule 2 matcher: `console\.error\("([^"]+)",\s*error\);`. -/
def mErr2 : Matcher := matchShape (str "console.error(\"") '"' (str "\",") true (str "error);")

/-- Rule 3 matcher: `console\.error\('([^']+)'\);`. -/
def mErr3 : Matcher := matchShape (str "console.error('") '\'' (str "');") false []

/-- Rule 4 matcher: `console\.error\("([^"]+)"\);`. -/
def mErr4 : Matcher := matchShape (str "console.error(\"") '"' (str "\");") false []

/-- Rule 5 matcher: `console\.log\('([^']+)'\);`. -/
def mLog5 : Matcher := matchShape (str "console.log('") '\'' (str "');") false []

/-- Rule 6 matcher: `console\.log\("([^"]+)"\);`. -/
def mLog6 : Matcher := matchShape (str "console.log(\"") '"' (str "\");") false []

/-- Rule 7 matcher: `console\.warn\('([^']+)'\);`. -/
def mWarn7 : Matcher := matchShape (str "console.warn('") '\'' (str "');") false []

/-- Rule 8 matcher: `console\.warn\("([^"]+)"\);`. -/
def mWarn8 : Matcher := matchShape (str "console.warn(\"") '"' (str "\");") false []

/-- Replacement template `pre ⬝ \1 ⬝ post`. -/
def replShape (pre post msg : Str) : Str := pre ++ msg ++ post

/-- Rule 1 replacement: `logger.error('\1', { error: error.message, stack: error.stack });`. -/
def rErr1 (msg : Str) : Str :=
  replShape (str "logger.error('") (str "', { error: error.message, stack: error.stack });") msg

/-- Rule 2 replacement, double-quoted. -/
def rErr2 (msg : Str) : Str :=
  replShape (str "logger.error(\"") (str "\", { error: error.message, stack: error.stack });") msg

/-- Rule 3 replacement: `logger.error('\1');`. -/
def rErr3 (msg : Str) : Str := replShape (str "logger.error('") (str "');") msg

/-- Rule 4 replacement, double-quoted. -/
def rErr4 (msg : Str) : Str := replShape (str "logger.error(\"") (str "\");") msg

/-- Rule 5 replacement: `logger.info('\1');`. -/
def rLog5 (msg : Str) : Str := replShape (str "logger.info('") (str "');") msg

/-- Rule 6 replacement, double-quoted. -/
def rLog6 (msg : Str) : Str := replShape (str "logger.info(\"") (str "\");") msg

/-- Rule 7 replacement: `logger.warn('\1');`. -/
def rWarn7 (msg : Str) : Str := replShape (str "logger.warn('") (str "');") msg

/-- Rule 8 replacement, double-quoted. -/
def rWarn8 (msg : Str) : Str := replShape (str "logger.warn(\"") (str "\");") msg

/-- One `re.subn` pass, fuelled: scan left to right; at each position either
replace a match of `m` by `r` applied to its captured group and resume after
the match, or keep the character and move on.  The fuel only bounds the
number of scanning steps; `subn` below supplies enough fuel. -/
def subnFuel (m : Matcher) (r : Str → Str) : Nat → Str → Str × Nat
  | _, [] => ([], 0)
  | 0, c :: cs => (c :: cs, 0)
  | fuel + 1, c :: cs =>
    match m (c :: cs) with
    | some (msg, rest) =>
      let p := subnFuel m r fuel rest
      (r msg ++ p.1, p.2 + 1)
    | none =>
      let p := subnFuel m r fuel cs
      (c :: p.1, p.2)

/-- `re.subn(pattern, repl, content)`: global leftmost non-overlapping
substitution, returning the new text and the number of replacements. -/
def subn (m : Matcher) (r : Str → Str) (cs : Str) : Str × Nat :=
  subnFuel m r cs.length cs

/-- `replace_console_statements(content)`: apply the eight substitution
rules in the source's order, accumulating the total replacement count. -/
def replace_console_statements (content : Str) : Str × Nat :=
  let p1 := subn mErr1 rErr1 content
  let p2 := subn mErr2 rErr2 p1.1
  let p3 := subn mErr3 rErr3 p2.1
  let p4 := subn mErr4 rErr4 p3.1
  let p5 := subn mLog5 rLog5 p4.1
  let p6 := subn mLog6 rLog6 p5.1
  let p7 := subn mWarn7 rWarn7 p6.1
  let p8 := subn mWarn8 rWarn8 p7.1
  (p8.1, p1.2 + p2.2 + p3.2 + p4.2 + p5.2 + p6.2 + p7.2 + p8.2)

/-- The per-file transformation performed by `main`'s loop body: import
insertion followed by console-call replacement (the content written back). -/
def processContent (content filepath : Str) : Str :=
  (replace_console_statements (add_logger_import content filepath).1).1

/-- Is there a match of `m` at some position of the input?  `subn` replaces
something exactly when this holds. -/
def existsMatchB (m : Matcher) : Str → Bool
  | [] => false
  | c :: cs => (m (c :: cs)).isSome || existsMatchB m cs

/-- Does some position of the content match one of the eight rules? -/
def hasAnyRuleMatch (cs : Str) : Bool :=
  existsMatchB mErr1 cs || existsMatchB mErr2 cs || existsMatchB mErr3 cs ||
  existsMatchB mErr4 cs || existsMatchB mLog5 cs || existsMatchB mLog6 cs ||
  existsMatchB mWarn7 cs || existsMatchB mWarn8 cs

/-- A matcher that strictly consumes input whenever it succeeds. -/
def Consumes (m : Matcher) : Prop :=
  ∀ cs msg rest, m cs = some (msg, rest) → rest.length < cs.length

end ReplaceConsole

namespace ReplaceConsole

theorem dropLit_eq_append {p : Str} :
    ∀ {cs r : Str}, dropLit p cs = some r → cs = p ++ r := by
  induction p with
  | nil => intro cs r h; simpa [dropLit] using h
  | cons x xs ih =>
    intro cs r h
    cases cs with
    | nil => simp [dropLit] at h
    | cons c cs' =>
      by_cases hc : c = x
      · subst hc
        simp only [dropLit, if_pos rfl] at h
        simpa using ih h
      · simp [dropLit, hc] at h

theorem dropLit_self_append (p r : Str) : dropLit p (p ++ r) = some r := by
  induction p with
  | nil => rfl
  | cons x xs ih => simp [dropLit, ih]

theorem length_le_of_dropLit {p cs r : Str} (h : dropLit p cs = some r) :
    r.length ≤ cs.length := by
  have := dropLit_eq_append h
  subst this
  simp

theorem length_dropWhile_le (p : Char → Bool) :
    ∀ l : Str, (l.dropWhile p).length ≤ l.length := by
  intro l
  induction l with
  | nil => simp [List.dropWhile]
  | cons c cs ih =>
    by_cases hc : p c
    · simp only [List.dropWhile, hc]
      exact Nat.le_succ_of_le ih
    · simp [List.dropWhile, hc]

theorem takeWhile_append_stop {p : Char → Bool} {M : Str} (hM : ∀ c ∈ M, p c = true)
    {x : Char} (hx : p x = false) (r : Str) :
    (M ++ x :: r).takeWhile p = M ∧ (M ++ x :: r).dropWhile p = x :: r := by
  induction M with
  | nil => simp [List.takeWhile, List.dropWhile, hx]
  | cons c M ih =>
    have hc : p c = true := hM c (by simp)
    have ih' := ih (fun d hd => hM d (by simp [hd]))
    simp [List.takeWhile, List.dropWhile, hc, ih'.1, ih'.2]

theorem matchShape_prefix {pre : Str} {q : Char} {t1 : Str} {w : Bool} {t2 : Str}
    {cs msg rest : Str} (h : matchShape pre q t1 w t2 cs = some (msg, rest)) :
    ∃ r1, cs = pre ++ r1 := by
  unfold matchShape at h
  cases hd : dropLit pre cs with
  | none => rw [hd] at h; exact absurd h (by simp)
  | some r1 => exact ⟨r1, dropLit_eq_append hd⟩

theorem matchShape_consumes {pre : Str} (hpre : pre ≠ []) (q : Char) (t1 : Str)
    (w : Bool) (t2 : Str) : Consumes (matchShape pre q t1 w t2) := by
  intro cs msg rest h
  unfold matchShape at h
  cases hd : dropLit pre cs with
  | none => rw [hd] at h; exact absurd h (by simp)
  | some r1 =>
    rw [hd] at h
    simp only at h
    by_cases hm : (r1.takeWhile (fun c => c != q)).isEmpty
    · rw [if_pos hm] at h; exact absurd h (by simp)
    · rw [if_neg hm] at h
      cases h1 : dropLit t1 (r1.dropWhile (fun c => c != q)) with
      | none => rw [h1] at h; exact absurd h (by simp)
      | some r3 =>
        rw [h1] at h
        simp only at h
        cases h2 : dropLit t2 (if w then r3.dropWhile isPySpace else r3) with
        | none => rw [h2] at h; exact absurd h (by simp)
        | some r5 =>
          rw [h2] at h
          simp only [Option.some.injEq, Prod.mk.injEq] at h
          -- chain of length bounds: rest = r5 ≤ r4 ≤ r3 ≤ r2 < r1 < cs
          have hr5 : r5.length ≤ (if w then r3.dropWhile isPySpace else r3).length :=
            length_le_of_dropLit h2
          have hr4 : (if w then r3.dropWhile isPySpace else r3).length ≤ r3.length := by
            cases w with
            | false => simp
            | true => simpa using length_dropWhile_le isPySpace r3
          have hr3 : r3.length ≤ (r1.dropWhile (fun c => c != q)).length :=
            length_le_of_dropLit h1
          have hr2 : (r1.dropWhile (fun c => c != q)).length ≤ r1.length :=
            length_dropWhile_le _ r1
          have hr1 : r1.length < cs.length := by
            have hcs := dropLit_eq_append hd

            subst hcs
            have : 0 < pre.length := List.length_pos.mpr hpre
            simp only [List.length_append]
            omega
          have := h.2
          subst this
          omega

theorem mErr1_consumes : Consumes mErr1 := matchShape_consumes (by decide) _ _ _ _

theorem mErr2_consumes : Consumes mErr2 := matchShape_consumes (by decide) _ _ _ _

theorem mErr3_consumes : Consumes mErr3 := matchShape_consumes (by decide) _ _ _ _

theorem mErr4_consumes : Consumes mErr4 := matchShape_consumes (by decide) _ _ _ _

theorem mLog5_consumes : Consumes mLog5 := matchShape_consumes (by decide) _ _ _ _

theorem mLog6_consumes : Consumes mLog6 := matchShape_consumes (by decide) _ _ _ _

theorem mWarn7_consumes : Consumes mWarn7 := matchShape_consumes (by decide) _ _ _ _

theorem mWarn8_consumes : Consumes mWarn8 := matchShape_consumes (by decide) _ _ _ _

theorem subnFuel_of_le {m : Matcher} {r : Str → Str} (hm : Consumes m) :
    ∀ f (cs : Str), cs.length ≤ f → subnFuel m r f cs = subnFuel m r cs.length cs := by
  intro f
  induction f using Nat.strong_induction_on with
  | _ f ih =>
    intro cs hle
    cases cs with
    | nil => cases f <;> rfl
    | cons c cs' =>
      cases f with
      | zero => simp at hle
      | succ g =>
        have hg : cs'.length ≤ g := by simpa using hle
        cases hmc : m (c :: cs') with
        | none =>
          simp only [subnFuel, hmc]
          rw [ih g (Nat.lt_succ_self g) cs' hg,
            ih cs'.length (Nat.lt_succ_of_le hg) cs' (Nat.le_refl _)]
        | some p =>
          obtain ⟨msg, rest⟩ := p
          have hrest : rest.length ≤ cs'.length := by
            have := hm _ _ _ hmc
            simp at this
            omega
          simp only [subnFuel, hmc]
          rw [ih g (Nat.lt_succ_self g) rest (le_trans hrest hg),
            ih cs'.length (Nat.lt_succ_of_le hg) rest hrest]

theorem subn_nil {m : Matcher} {r : Str → Str} : subn m r [] = ([], 0) := rfl

theorem subn_cons_none {m : Matcher} {r : Str → Str} {c : Char} {cs : Str}
    (h : m (c :: cs) = none) :
    subn m r (c :: cs) = (c :: (subn m r cs).1, (subn m r cs).2) := by
  simp only [subn, List.length_cons, subnFuel, h]

theorem subn_cons_some {m : Matcher} {r : Str → Str} (hm : Consumes m)
    {c : Char} {cs msg rest : Str} (h : m (c :: cs) = some (msg, rest)) :
    subn m r (c :: cs) = (r msg ++ (subn m r rest).1, (subn m r rest).2 + 1) := by
  have hrest : rest.length ≤ cs.length := by
    have := hm _ _ _ h; simp at this; omega
  simp only [subn, List.length_cons, subnFuel, h]
  rw [subnFuel_of_le hm cs.length rest hrest]

theorem subn_match {m : Matcher} {r : Str → Str} (hm : Consumes m)
    {cs msg rest : Str} (hne : cs ≠ []) (h : m cs = some (msg, rest)) :
    subn m r cs = (r msg ++ (subn m r rest).1, (subn m r rest).2 + 1) := by
  cases cs with
  | nil => exact absurd rfl hne
  | cons c cs' => exact subn_cons_some hm h

theorem subn_no_match {m : Matcher} {r : Str → Str} :
    ∀ {cs : Str}, existsMatchB m cs = false → subn m r cs = (cs, 0) := by
  intro cs
  induction cs with
  | nil => intro _; rfl
  | cons c cs' ih =>
    intro h
    simp only [existsMatchB, Bool.or_eq_false_iff] at h
    have hnone : m (c :: cs') = none := by
      cases hmc : m (c :: cs') with
      | none => rfl
      | some p => rw [hmc] at h; simp at h
    rw [subn_cons_none hnone, ih h.2]

theorem subn_count_pos {m : Matcher} {r : Str → Str} (hm : Consumes m) :
    ∀ {cs : Str}, existsMatchB m cs = true → 0 < (subn m r cs).2 := by
  intro cs
  induction cs with
  | nil => intro h; simp [existsMatchB] at h
  | cons c cs' ih =>
    intro h
    cases hmc : m (c :: cs') with
    | some p =>
      obtain ⟨msg, rest⟩ := p
      rw [subn_cons_some hm hmc]
      simp
    | none =>
      have h' : existsMatchB m cs' = true := by
        simp only [existsMatchB, hmc] at h
        simpa using h
      rw [subn_cons_none hmc]
      exact ih h'

theorem containsStr_of_isPrefixOf {pat cs : Str} (h : pat.isPrefixOf cs = true) :
    containsStr pat cs = true := by
  cases cs with
  | nil =>
    cases pat with
    | nil => rfl
    | cons p ps => simp [List.isPrefixOf] at h
  | cons c cs' => simp [containsStr, h]

theorem containsStr_drop {pat cs : Str} (h : containsStr pat cs = false) :
    ∀ n, containsStr pat (cs.drop n) = false := by
  induction cs with
  | nil => intro n; simpa [List.drop_nil] using h
  | cons c cs' ih =>
    intro n
    cases n with
    | zero => exact h
    | succ k =>
      simp only [containsStr, Bool.or_eq_false_iff] at h
      exact ih h.2 k

theorem isPrefixOf_append_split :
    ∀ (p a b : Str), p.isPrefixOf (a ++ b) = true →
      (a.length < p.length ∧ a = p.take a.length ∧
        (p.drop a.length).isPrefixOf b = true) ∨ p.isPrefixOf a = true := by
  intro p a
  induction a generalizing p with
  | nil =>
    intro b h
    cases p with
    | nil => right; rfl
    | cons x xs => left; exact ⟨by simp, rfl, by simpa using h⟩
  | cons c a' ih =>
    intro b h
    cases p with
    | nil => right; rfl
    | cons x xs =>
      simp only [List.cons_append, List.isPrefixOf, Bool.and_eq_true, beq_iff_eq] at h
      obtain ⟨hx, hrest⟩ := h
      rcases ih xs b hrest with ⟨hl, ha, hb⟩ | hp
      · left
        refine ⟨by simpa using Nat.succ_lt_succ hl, ?_, ?_⟩
        · simp only [List.length_cons, List.take_succ_cons]
          rw [hx, ← ha]
        · simpa using hb
      · right
        simp [List.isPrefixOf, hx, hp]

theorem isPrefixOf_append_left {p : Str} :
    ∀ {a : Str} (r : Str), p.isPrefixOf a = true → p.isPrefixOf (a ++ r) = true := by
  induction p with
  | nil => intro a r _; simp [List.isPrefixOf]
  | cons x xs ih =>
    intro a r h
    cases a with
    | nil => simp [List.isPrefixOf] at h
    | cons c a' =>
      simp only [List.isPrefixOf, Bool.and_eq_true, beq_iff_eq] at h
      simp [List.isPrefixOf, h.1, ih r h.2]

theorem head_eq_of_isPrefixOf {q b : Str} (h : q.isPrefixOf b = true) (hq : q ≠ []) :
    b.head? = q.head? := by
  cases q with
  | nil => exact absurd rfl hq
  | cons x xs =>
    cases b with
    | nil => simp [List.isPrefixOf] at h
    | cons c b' =>
      simp only [List.isPrefixOf, Bool.and_eq_true, beq_iff_eq] at h
      simp [h.1]

/-- If `console.` starts at the junction of `a ++ b`, `a` is nonempty and `b`
starts with `c`, the occurrence must lie entirely inside `a`: no proper
prefix of `console.` is followed by another `c`. -/
theorem console_prefix_append {a b : Str}
    (h : (str "console.").isPrefixOf (a ++ b) = true) (ha : a ≠ [])
    (hb : b.head? = some 'c') : containsStr (str "console.") a = true := by
  rcases isPrefixOf_append_split (str "console.") a b h with ⟨hl, hak, hdrop⟩ | hp
  · exfalso
    have h8 : (str "console.").length = 8 := rfl
    have h1 : 1 ≤ a.length := by
      cases a with
      | nil => exact absurd rfl ha
      | cons x xs => simp
    have hl8 : a.length < 8 := by rw [h8] at hl; exact hl
    have hne : (str "console.").drop a.length ≠ [] := by
      intro hcon
      have hlen := congrArg List.length hcon
      rw [List.length_drop, h8] at hlen
      simp only [List.length_nil] at hlen
      omega
    have hhead := head_eq_of_isPrefixOf hdrop hne
    rw [hb] at hhead
    have hk : ∀ k, 1 ≤ k → k < 8 → ((str "console.").drop k).head? ≠ some 'c' := by decide
    exact hk a.length h1 hl8 hhead.symm
  · exact containsStr_of_isPrefixOf hp

/-- A matcher that only ever matches at an occurrence of `console.`. -/
def ConsoleAnchored (m : Matcher) : Prop :=
  ∀ cs msg rest, m cs = some (msg, rest) → (str "console.").isPrefixOf cs = true

theorem matchShape_consoleAnchored {pre : Str} {q : Char} {t1 : Str} {w : Bool}
    {t2 : Str} (h : (str "console.").isPrefixOf pre = true) :
    ConsoleAnchored (matchShape pre q t1 w t2) := by
  intro cs msg rest hm
  obtain ⟨r1, hcs⟩ := matchShape_prefix hm
  subst hcs
  exact isPrefixOf_append_left r1 h

theorem mErr1_anchored : ConsoleAnchored mErr1 := matchShape_consoleAnchored (by decide)

theorem mErr2_anchored : ConsoleAnchored mErr2 := matchShape_consoleAnchored (by decide)

theorem mErr3_anchored : ConsoleAnchored mErr3 := matchShape_consoleAnchored (by decide)

theorem mErr4_anchored : ConsoleAnchored mErr4 := matchShape_consoleAnchored (by decide)

theorem mLog5_anchored : ConsoleAnchored mLog5 := matchShape_consoleAnchored (by decide)

theorem mLog6_anchored : ConsoleAnchored mLog6 := matchShape_consoleAnchored (by decide)

theorem mWarn7_anchored : ConsoleAnchored mWarn7 := matchShape_consoleAnchored (by decide)

theorem mWarn8_anchored : ConsoleAnchored mWarn8 := matchShape_consoleAnchored (by decide)

theorem existsMatchB_false_of_noConsole {m : Matcher} (hm : ConsoleAnchored m) :
    ∀ {cs : Str}, containsStr (str "console.") cs = false → existsMatchB m cs = false := by
  intro cs
  induction cs with
  | nil => intro _; rfl
  | cons c cs' ih =>
    intro h
    simp only [containsStr, Bool.or_eq_false_iff] at h
    have hnone : m (c :: cs') = none := by
      cases hmc : m (c :: cs') with
      | none => rfl
      | some p =>
        obtain ⟨msg, rest⟩ := p
        exact absurd (hm _ _ _ hmc) (by simp [h.1])
    simp [existsMatchB, hnone, ih h.2]

/-- On content with no occurrence of `console.`, every rule is a no-op. -/
theorem replace_noConsole {cs : Str} (h : containsStr (str "console.") cs = false) :
    replace_console_statements cs = (cs, 0) := by
  have e1 := @subn_no_match mErr1 rErr1 cs (existsMatchB_false_of_noConsole mErr1_anchored h)
  have e2 := @subn_no_match mErr2 rErr2 cs (existsMatchB_false_of_noConsole mErr2_anchored h)
  have e3 := @subn_no_match mErr3 rErr3 cs (existsMatchB_false_of_noConsole mErr3_anchored h)
  have e4 := @subn_no_match mErr4 rErr4 cs (existsMatchB_false_of_noConsole mErr4_anchored h)
  have e5 := @subn_no_match mLog5 rLog5 cs (existsMatchB_false_of_noConsole mLog5_anchored h)
  have e6 := @subn_no_match mLog6 rLog6 cs (existsMatchB_false_of_noConsole mLog6_anchored h)
  have e7 := @subn_no_match mWarn7 rWarn7 cs (existsMatchB_false_of_noConsole mWarn7_anchored h)
  have e8 := @subn_no_match mWarn8 rWarn8 cs (existsMatchB_false_of_noConsole mWarn8_anchored h)
  simp only [replace_console_statements, e1, e2, e3, e4, e5, e6, e7, e8]

theorem splitOnNl_ne_nil (cs : Str) : splitOnNl cs ≠ [] := by
  cases cs with
  | nil => simp [splitOnNl]
  | cons c cs' =>
    by_cases hc : c = '\n'
    · simp [splitOnNl, hc]
    · simp [splitOnNl, hc]

theorem joinNl_splitOnNl : ∀ cs : Str, joinNl (splitOnNl cs) = cs := by
  intro cs
  induction cs with
  | nil => rfl
  | cons c cs' ih =>
    by_cases hc : c = '\n'
    · subst hc
      simp only [splitOnNl, if_pos rfl]
      cases h : splitOnNl cs' with
      | nil => exact absurd h (splitOnNl_ne_nil cs')
      | cons l ls =>
        rw [h] at ih
        show [] ++ '\n' :: joinNl (l :: ls) = '\n' :: cs'
        rw [ih]
        rfl
    · simp only [splitOnNl, if_neg hc]
      cases h : splitOnNl cs' with
      | nil => exact absurd h (splitOnNl_ne_nil cs')
      | cons l ls =>
        rw [h] at ih
        show joinNl ((c :: l) :: ls) = c :: cs'
        cases ls with
        | nil => exact congrArg (List.cons c) ih
        | cons l2 ls' =>
          show (c :: l) ++ '\n' :: joinNl (l2 :: ls') = c :: cs'
          rw [List.cons_append]
          exact congrArg (List.cons c) ih

theorem mem_splitOnNl_no_nl : ∀ cs : Str, ∀ l ∈ splitOnNl cs, '\n' ∉ l := by
  intro cs
  induction cs with
  | nil =>
    intro l hl
    simp only [splitOnNl, List.mem_singleton] at hl
    subst hl
    simp
  | cons c cs' ih =>
    intro l hl
    by_cases hc : c = '\n'
    · simp only [splitOnNl, if_pos hc, List.mem_cons] at hl
      rcases hl with h1 | h2
      · subst h1; simp
      · exact ih l h2
    · simp only [splitOnNl, if_neg hc] at hl
      cases h : splitOnNl cs' with
      | nil => exact absurd h (splitOnNl_ne_nil cs')
      | cons lh lt =>
        rw [h] at hl
        simp only [List.headI, List.tail, List.mem_cons] at hl
        rcases hl with h1 | h2
        · subst h1
          intro hmem
          rcases List.mem_cons.mp hmem with h3 | h4
          · exact hc h3.symm
          · exact ih lh (h ▸ List.mem_cons_self lh lt) h4
        · exact ih l (h ▸ List.mem_cons_of_mem lh h2)

theorem splitOnNl_of_no_nl : ∀ l : Str, '\n' ∉ l → splitOnNl l = [l] := by
  intro l
  induction l with
  | nil => intro _; rfl
  | cons c l' ih =>
    intro h
    have hc : ¬ c = '\n' := fun hcc => h (hcc ▸ List.mem_cons_self c l')
    have hl' : '\n' ∉ l' := fun hm => h (List.mem_cons_of_mem c hm)
    simp [splitOnNl, if_neg hc, ih hl']

theorem splitOnNl_append_nl {l : Str} (hl : '\n' ∉ l) (rest : Str) :
    splitOnNl (l ++ '\n' :: rest) = l :: splitOnNl rest := by
  induction l with
  | nil => simp [splitOnNl]
  | cons c l' ih =>
    have hc : ¬ c = '\n' := fun hcc => hl (hcc ▸ List.mem_cons_self c l')
    have hl' : '\n' ∉ l' := fun hm => hl (List.mem_cons_of_mem c hm)
    rw [List.cons_append]
    simp only [splitOnNl, if_neg hc]
    rw [ih hl']
    simp

theorem splitOnNl_joinNl :
    ∀ ls : List Str, ls ≠ [] → (∀ l ∈ ls, '\n' ∉ l) → splitOnNl (joinNl ls) = ls := by
  intro ls
  induction ls with
  | nil => intro h; exact absurd rfl h
  | cons l ls' ih =>
    intro _ hmem
    cases ls' with
    | nil => exact splitOnNl_of_no_nl l (hmem l (List.mem_cons_self l []))
    | cons l2 ls'' =>
      show splitOnNl (l ++ '\n' :: joinNl (l2 :: ls'')) = l :: l2 :: ls''
      rw [splitOnNl_append_nl (hmem l (List.mem_cons_self l _)),
        ih (by simp) (fun x hx => hmem x (List.mem_cons_of_mem l hx))]

theorem joinNl_append_of_ne_nil :
    ∀ {A : List Str}, A ≠ [] → ∀ {B : List Str}, B ≠ [] →
      joinNl (A ++ B) = joinNl A ++ '\n' :: joinNl B := by
  intro A
  induction A with
  | nil => intro h; exact absurd rfl h
  | cons a A' ih =>
    intro _ B hB
    cases A' with
    | nil =>
      cases B with
      | nil => exact absurd rfl hB
      | cons b B' => rfl
    | cons a2 A'' =>
      show (a ++ '\n' :: joinNl ((a2 :: A'') ++ B)) = (a ++ '\n' :: joinNl (a2 :: A'')) ++ '\n' :: joinNl B
      rw [ih (by simp) hB, List.append_assoc]
      rfl

theorem lastRequireIdx_none_iff :
    ∀ ls : List Str, lastRequireIdx ls = none ↔ ∀ l ∈ ls, isRequireLine l = false := by
  intro ls
  induction ls with
  | nil => simp [lastRequireIdx]
  | cons l ls' ih =>
    constructor
    · intro h
      simp only [lastRequireIdx] at h
      cases hr : lastRequireIdx ls' with
      | some i => rw [hr] at h; exact absurd h (by simp)
      | none =>
        rw [hr] at h
        by_cases hl : isRequireLine l
        · rw [if_pos hl] at h; exact absurd h (by simp)
        · intro x hx
          rcases List.mem_cons.mp hx with h1 | h2
          · subst h1; simpa using hl
          · exact (ih.mp hr) x h2
    · intro hall
      have h0 : isRequireLine l = false := hall l (List.mem_cons_self l ls')
      have hrest : lastRequireIdx ls' = none :=
        ih.mpr (fun x hx => hall x (List.mem_cons_of_mem l hx))
      simp [lastRequireIdx, hrest, h0]

theorem lastRequireIdx_spec :
    ∀ (ls : List Str) (i : Nat), lastRequireIdx ls = some i →
      i < ls.length ∧ isRequireLine (ls.getD i []) = true ∧
        ∀ l ∈ ls.drop (i + 1), isRequireLine l = false := by
  intro ls
  induction ls with
  | nil => intro i h; simp [lastRequireIdx] at h
  | cons l ls' ih =>
    intro i h
    simp only [lastRequireIdx] at h
    cases hr : lastRequireIdx ls' with
    | some j =>
      rw [hr] at h
      simp only [Option.some.injEq] at h
      subst h
      obtain ⟨h1, h2, h3⟩ := ih j hr
      exact ⟨by simpa using Nat.succ_lt_succ h1, by simpa using h2, by simpa using h3⟩
    | none =>
      rw [hr] at h
      by_cases hl : isRequireLine l
      · rw [if_pos hl] at h
        simp only [Option.some.injEq] at h
        subst h
        refine ⟨by simp, by simpa using hl, ?_⟩
        simpa using (lastRequireIdx_none_iff ls').mp hr
      · rw [if_neg hl] at h
        exact absurd h (by simp)

theorem take_succ_getD :
    ∀ (ls : List Str) (i : Nat), i < ls.length →
      ls.take (i + 1) = ls.take i ++ [ls.getD i []] := by
  intro ls
  induction ls with
  | nil => intro i h; simp at h
  | cons l ls' ih =>
    intro i h
    cases i with
    | zero => rfl
    | succ j =>
      have hj : j < ls'.length := by simpa using h
      simp only [List.take_succ_cons, List.getD_cons_succ]
      rw [← List.take_succ_cons]

      simp only [List.take_succ_cons, ih j hj]
      rfl

/-- If either logger reference is already in the content, `add_logger_import`
leaves it unchanged and reports `False`. -/
theorem add_logger_import_present {content : Str} (path : Str)
    (h : containsStr checkSq content = true ∨ containsStr checkDq content = true) :
    add_logger_import content path = (content, false) := by
  unfold add_logger_import
  rcases h with h | h <;> simp [h]

/-- If no line of the content matches the require-declaration pattern,
`add_logger_import` leaves it unchanged and reports `False`. -/
theorem add_logger_import_noRequire {content : Str} (path : Str)
    (h : ∀ l ∈ splitOnNl content, isRequireLine l = false) :
    add_logger_import content path = (content, false) := by
  have hnone := (lastRequireIdx_none_iff (splitOnNl content)).mpr h
  by_cases hc : containsStr checkSq content || containsStr checkDq content
  · simp [add_logger_import, hnone, hc]
  · simp [add_logger_import, hnone, hc]

theorem subn_skip {m : Matcher} {r : Str → Str} :
    ∀ (pre rest : Str), (∀ n, n < pre.length → m (pre.drop n ++ rest) = none) →
      subn m r (pre ++ rest) = (pre ++ (subn m r rest).1, (subn m r rest).2) := by
  intro pre
  induction pre with
  | nil => intro rest _; simp
  | cons c pre' ih =>
    intro rest h
    have h0 : m (c :: (pre' ++ rest)) = none := by
      have := h 0 (by simp)
      simpa using this
    rw [List.cons_append, subn_cons_none h0,
      ih rest (fun n hn => by simpa using h (n + 1) (by simpa using Nat.succ_lt_succ hn))]
    simp

theorem isSuffixOf_cons_of {x a' : Str} (c : Char) (h : x.isSuffixOf a' = true) :
    x.isSuffixOf (c :: a') = true := by
  rw [List.isSuffixOf_iff_suffix] at h ⊢
  exact h.trans (List.suffix_cons c a')

theorem containsStr_append_false {pat : Str} :
    ∀ {a : Str} {b : Str}, containsStr pat a = false → containsStr pat b = false →
      (∀ k, 0 < k → k < pat.length →
        ¬((pat.take k).isSuffixOf a = true ∧ (pat.drop k).isPrefixOf b = true)) →
      containsStr pat (a ++ b) = false := by
  intro a
  induction a with
  | nil => intro b _ hb _; simpa using hb
  | cons c a' ih =>
    intro b ha hb hstr
    simp only [containsStr, Bool.or_eq_false_iff] at ha
    simp only [List.cons_append, containsStr, Bool.or_eq_false_iff]
    constructor
    · cases hp : pat.isPrefixOf (c :: (a' ++ b)) with
      | false => rfl
      | true =>
        exfalso
        have hp' : pat.isPrefixOf ((c :: a') ++ b) = true := by simpa using hp
        rcases isPrefixOf_append_split pat (c :: a') b hp' with ⟨hl, hak, hdrop⟩ | hpa
        · refine hstr (c :: a').length (by simp) hl ⟨?_, hdrop⟩
          rw [← hak]
          rw [List.isSuffixOf_iff_suffix]
        · exact absurd hpa (by simp [ha.1])
    · exact ih ha.2 hb (fun k hk hkl hand =>
        hstr k hk hkl ⟨isSuffixOf_cons_of c hand.1, hand.2⟩)

theorem isPrefixOf_of_append_long {p a b : Str} (h : p.isPrefixOf (a ++ b) = true)
    (hlen : p.length ≤ a.length) : p.isPrefixOf a = true := by
  rcases isPrefixOf_append_split p a b h with ⟨hl, _, _⟩ | hp
  · omega
  · exact hp

theorem containsStr_mid (x : Str) : ∀ (a b : Str), containsStr x (a ++ x ++ b) = true := by
  intro a
  induction a with
  | nil =>
    intro b
    cases x with
    | nil => cases b <;> simp [containsStr]
    | cons p ps =>
      have : (p :: ps).isPrefixOf ((p :: ps) ++ b) = true := by
        rw [List.isPrefixOf_iff_prefix]
        exact List.prefix_append (p :: ps) b
      simp only [List.nil_append, List.cons_append, containsStr]
      rw [Bool.or_eq_true]
      exact Or.inl this
  | cons c a' ih =>
    intro b
    simp only [List.cons_append, containsStr]
    rw [Bool.or_eq_true]
    exact Or.inr (ih b)

theorem matchShape_at (pre : Str) (q : Char) (t1 : Str) (ws : Bool) (t2 : Str)
    {M : Str} (tail r3v rest : Str) (hne : M.isEmpty = false)
    (hMq : ∀ c ∈ M, (c != q) = true)
    (h1 : dropLit t1 (q :: tail) = some r3v)
    (h2 : dropLit t2 (if ws then r3v.dropWhile isPySpace else r3v) = some rest) :
    matchShape pre q t1 ws t2 (pre ++ (M ++ (q :: tail))) = some (M, rest) := by
  have hsp := takeWhile_append_stop hMq (show (fun c => c != q) q = false by simp) tail
  unfold matchShape
  rw [dropLit_self_append]
  simp only [hsp.1, hsp.2, hne, Bool.false_eq_true, if_false, h1, h2]

theorem mErr1_at {M : Str} (post : Str) (hne : M.isEmpty = false)
    (hMq : ∀ c ∈ M, (c != '\'') = true) :
    mErr1 (str "console.error('" ++ (M ++ ('\'' :: (str ", error);" ++ post)))) =
      some (M, post) := by
  unfold mErr1
  apply matchShape_at (str "console.error('") '\'' (str "',") true (str "error);")
    (str ", error);" ++ post) (str " error);" ++ post) post hne hMq
  · show dropLit ['\'', ','] ('\'' :: ',' :: (str " error);" ++ post)) =
      some (str " error);" ++ post)
    simp [dropLit]
  · show dropLit (str "error);") ((' ' :: (str "error);" ++ post)).dropWhile isPySpace) =
      some post
    rw [List.dropWhile_cons]
    simp only [show isPySpace ' ' = true from rfl, if_true]
    rw [show (str "error);" ++ post : Str) = 'e' :: (str "rror);" ++ post) from rfl,
      List.dropWhile_cons]
    simp only [show isPySpace 'e' = false from rfl, Bool.false_eq_true, if_false]
    exact dropLit_self_append (str "error);") post

theorem drop_ne_nil_of_lt {a : Str} {n : Nat} (h : n < a.length) : a.drop n ≠ [] := by
  intro hcon
  have := congrArg List.length hcon
  rw [List.length_drop] at this
  simp at this
  omega

/-- During the scan of rule 1 over `pre ++ stmt ++ post`, no match can start
inside `pre` when `pre` has no occurrence of `console.`. -/
theorem skip_over_pre {m : Matcher} (hanch : ConsoleAnchored m) {pre : Str}
    (hpre : containsStr (str "console.") pre = false) (rest : Str)
    (hhead : rest.head? = some 'c') :
    ∀ n, n < pre.length → m (pre.drop n ++ rest) = none := by
  intro n hn
  cases hmc : m (pre.drop n ++ rest) with
  | none => rfl
  | some p =>
    exfalso
    obtain ⟨msg, rest'⟩ := p
    have hpa := hanch _ _ _ hmc
    have hcontra := console_prefix_append hpa (drop_ne_nil_of_lt hn) hhead
    rw [containsStr_drop hpre n] at hcontra
    exact absurd hcontra (by simp)

/-- Rule 1 on `pre ++ console.error('M', error); ++ post` (with `console.`
occurring nowhere in `pre` or `post`, and `M` a nonempty quote-free message)
performs exactly the one substitution. -/
theorem subn_rule1_at {pre M post : Str}
    (hpre : containsStr (str "console.") pre = false)
    (hpost : containsStr (str "console.") post = false)
    (hne : M.isEmpty = false) (hMq : ∀ c ∈ M, (c != '\'') = true) :
    subn mErr1 rErr1
        (pre ++ (str "console.error('" ++ (M ++ ('\'' :: (str ", error);" ++ post))))) =
      (pre ++ (rErr1 M ++ post), 1) := by
  have hmatch := mErr1_at post hne hMq
  have hrest : subn mErr1 rErr1 post = (post, 0) :=
    subn_no_match (existsMatchB_false_of_noConsole mErr1_anchored hpost)
  have hskip := skip_over_pre mErr1_anchored hpre
    (str "console.error('" ++ (M ++ ('\'' :: (str ", error);" ++ post)))) rfl
  rw [subn_skip _ _ hskip,
    subn_match mErr1_consumes (by simp [str]) hmatch, hrest]

/-- The literal left part of the rule 1 replacement. -/
def errLit1 : Str := str "logger.error('"

/-- The literal right part of the rule 1 replacement. -/
def errLit2 : Str := str "', { error: error.message, stack: error.stack });"

theorem rErr1_decomp (M : Str) : rErr1 M = errLit1 ++ (M ++ errLit2) := by
  simp [rErr1, replShape, errLit1, errLit2]

/-- The output `pre ++ logger.error('M', {...}); ++ post` contains no
occurrence of `console.` when `pre`, `M` and `post` contain none. -/
theorem output_noConsole {pre M post : Str}
    (hpre : containsStr (str "console.") pre = false)
    (hM : containsStr (str "console.") M = false)
    (hpost : containsStr (str "console.") post = false) :
    containsStr (str "console.") (pre ++ (errLit1 ++ (M ++ (errLit2 ++ post)))) = false := by
  have h8 : (str "console.").length = 8 := rfl
  have hA : containsStr (str "console.") (errLit2 ++ post) = false := by
    apply containsStr_append_false (by decide) hpost
    intro k hk hkl hand
    have hval : ∀ k, k < 8 → 0 < k →
        ((str "console.").take k).isSuffixOf errLit2 = false := by decide
    rw [hval k (h8 ▸ hkl) hk] at hand
    exact absurd hand.1 (by simp)
  have hB : containsStr (str "console.") (M ++ (errLit2 ++ post)) = false := by
    apply containsStr_append_false hM hA
    intro k hk hkl hand
    have hlong : ((str "console.").drop k).isPrefixOf errLit2 = true := by
      apply isPrefixOf_of_append_long hand.2
      rw [List.length_drop, h8]
      show 8 - k ≤ 49
      omega
    have hval : ∀ k, k < 8 → 0 < k →
        ((str "console.").drop k).isPrefixOf errLit2 = false := by decide
    rw [hval k (h8 ▸ hkl) hk] at hlong
    exact absurd hlong (by simp)
  have hC : containsStr (str "console.") (errLit1 ++ (M ++ (errLit2 ++ post))) = false := by
    apply containsStr_append_false (by decide) hB
    intro k hk hkl hand
    have hval : ∀ k, k < 8 → 0 < k →
        ((str "console.").take k).isSuffixOf errLit1 = false := by decide
    rw [hval k (h8 ▸ hkl) hk] at hand
    exact absurd hand.1 (by simp)
  apply containsStr_append_false hpre hC
  intro k hk hkl hand
  have hlong : ((str "console.").drop k).isPrefixOf errLit1 = true := by
    apply isPrefixOf_of_append_long hand.2
    rw [List.length_drop, h8]
    show 8 - k ≤ 14
    omega
  have hval : ∀ k, k < 8 → 0 < k →
      ((str "console.").drop k).isPrefixOf errLit1 = false := by decide
  rw [hval k (h8 ▸ hkl) hk] at hlong
  exact absurd hlong (by simp)

/-- One full rewrite pass on `pre ++ console.error('M', error); ++ post`:
the statement becomes the structured logger call, everything else is
untouched, and the pass reports exactly one substitution. -/
theorem replace_c4 {pre M post : Str}
    (hpre : containsStr (str "console.") pre = false)
    (hM : containsStr (str "console.") M = false)
    (hpost : containsStr (str "console.") post = false)
    (hne : M.isEmpty = false) (hMq : ∀ c ∈ M, (c != '\'') = true) :
    replace_console_statements
        (pre ++ (str "console.error('" ++ (M ++ ('\'' :: (str ", error);" ++ post))))) =
      (pre ++ (rErr1 M ++ post), 1) := by
  have h1 := subn_rule1_at hpre hpost hne hMq
  have hout : containsStr (str "console.") (pre ++ (rErr1 M ++ post)) = false := by
    have := output_noConsole hpre hM hpost
    rw [rErr1_decomp, List.append_assoc, List.append_assoc]
    exact this
  have e2 := @subn_no_match mErr2 rErr2 _ (existsMatchB_false_of_noConsole mErr2_anchored hout)
  have e3 := @subn_no_match mErr3 rErr3 _ (existsMatchB_false_of_noConsole mErr3_anchored hout)
  have e4 := @subn_no_match mErr4 rErr4 _ (existsMatchB_false_of_noConsole mErr4_anchored hout)
  have e5 := @subn_no_match mLog5 rLog5 _ (existsMatchB_false_of_noConsole mLog5_anchored hout)
  have e6 := @subn_no_match mLog6 rLog6 _ (existsMatchB_false_of_noConsole mLog6_anchored hout)
  have e7 := @subn_no_match mWarn7 rWarn7 _ (existsMatchB_false_of_noConsole mWarn7_anchored hout)
  have e8 := @subn_no_match mWarn8 rWarn8 _ (existsMatchB_false_of_noConsole mWarn8_anchored hout)
  simp only [replace_console_statements, h1, e2, e3, e4, e5, e6, e7, e8]

end ReplaceConsole

namespace ReplaceConsole

/-- Does a line contain a match of the grep pattern
`console\.\(log\|error\|warn\)`? -/
def hasConsoleCallSub (l : Str) : Bool :=
  containsStr (str "console.log") l || containsStr (str "console.error") l ||
  containsStr (str "console.warn") l

/-- `grep -c` counts matching LINES: number of lines of the content that
contain the pattern `console\.\(log\|error\|warn\)`. -/
def countConsoleLines (content : Str) : Nat :=
  (splitOnNl content).countP hasConsoleCallSub

/-- Result of invoking the external `grep -c` subprocess: either the
invocation itself raised an exception, or it ran and produced an exit status
and stdout text. -/
inductive GrepOutcome where
  | raised
  | ran (returncode : Int) (stdout : Str)

/-- Digit-string value, if all characters are ASCII digits (nonempty). -/
def digitsVal? (ds : Str) : Option Nat :=
  if ds.isEmpty then none
  else if ds.all (fun c => c.isDigit) then
    some (ds.foldl (fun a c => a * 10 + (c.toNat - 48)) 0)
  else none

/-- Python `int(s)` on an already-stripped string: optional sign followed by
digits, `none` when the parse raises `ValueError`. -/
def pyParseInt? (cs : Str) : Option Int :=
  match cs with
  | '-' :: ds => (digitsVal? ds).map (fun n => -(n : Int))
  | '+' :: ds => (digitsVal? ds).map (fun n => (n : Int))
  | ds => (digitsVal? ds).map (fun n => (n : Int))

/-- The body of `count_console_statements`'s `try` block:
`int(result.stdout.strip()) if result.returncode == 0 else 0`, where the
subprocess invocation itself may raise. -/
def count_console_raw (g : GrepOutcome) : Except Unit Int :=
  match g with
  | .raised => .error ()
  | .ran rc out =>
    if rc = 0 then
      match pyParseInt? (pyStrip out) with
      | some n => .ok n
      | none => .error ()
    else .ok 0

/-- `count_console_statements(filepath)`: the `try` body with the bare
`except: return 0` wrapped around it — a total function. -/
def count_console_statements (g : GrepOutcome) : Int :=
  match count_console_raw g with
  | .ok n => n
  | .error _ => 0

/-- `find_files_with_console()`: split the enumeration's stripped stdout on
newlines and keep the nonempty paths whose console-statement count is
positive. -/
def find_files_with_console (enumOut : Str) (countOf : Str → Int) : List Str :=
  (splitOnNl (pyStrip enumOut)).filter (fun p => !p.isEmpty && decide (0 < countOf p))

/-- The filesystem under `src/`: an association of paths to contents. -/
structure FS where
  files : List (Str × Str)

/-- Read a file (empty if absent; `main` only reads enumerated files). -/
def FS.read (fs : FS) (p : Str) : Str :=
  ((fs.files.find? (fun e => e.1 == p)).map Prod.snd).getD []

/-- Overwrite a file in place. -/
def FS.write (fs : FS) (p c : Str) : FS :=
  ⟨fs.files.map (fun e => if e.1 == p then (p, c) else e)⟩

/-- One iteration of `main`'s loop: read the file, count the pattern before,
insert the import if needed, run the eight substitutions, write the result
back, count after.  Returns the new filesystem, the import-added flag, and
the before-minus-after delta added to `total_replacements`. -/
def processOne (fs : FS) (p : Str) : FS × Bool × Int :=
  let content := fs.read p
  let before : Int := countConsoleLines content
  let r1 := add_logger_import content p
  let r2 := replace_console_statements r1.1
  let fs2 := fs.write p r2.1
  let after : Int := countConsoleLines r2.1
  (fs2, r1.2, before - after)

/-- The run-level figures `main` reports, plus the final filesystem. -/
structure RunReport where
  filesFound : Nat
  importsAdded : Nat
  totalReplacements : Int
  remainingFiles : Nat
  totalRemaining : Int
  finalFs : FS

/-- `main()`: locate candidate files, process each in turn accumulating the
totals, then re-scan to report what remains.  `enumOut` is the stdout of the
`find` enumeration (the same on both scans: the run renames no files), and
the per-file `grep -c` query is modelled by the line count of the file's
current content. -/
def main (enumOut : Str) (fs0 : FS) : RunReport :=
  let files := find_files_with_console enumOut
    (fun p => (countConsoleLines (fs0.read p) : Int))
  let st := files.foldl (fun (acc : FS × Nat × Int) p =>
    let r := processOne acc.1 p
    (r.1, acc.2.1 + (if r.2.1 then 1 else 0), acc.2.2 + r.2.2)) (fs0, 0, 0)
  let remaining := find_files_with_console enumOut
    (fun p => (countConsoleLines (st.1.read p) : Int))
  { filesFound := files.length
    importsAdded := st.2.1
    totalReplacements := st.2.2
    remainingFiles := remaining.length
    totalRemaining := (remaining.map (fun p => (countConsoleLines (st.1.read p) : Int))).sum
    finalFs := st.1 }

/-- If some rule matches somewhere, the pass reports at least one
substitution. -/
theorem replace_count_pos {cs : Str} (h : hasAnyRuleMatch cs = true) :
    0 < (replace_console_statements cs).2 := by
  by_cases h1 : existsMatchB mErr1 cs
  · have := subn_count_pos (r := rErr1) mErr1_consumes h1
    simp only [replace_console_statements]
    omega
  · have e1 := @subn_no_match mErr1 rErr1 cs (by simpa using h1)
    by_cases h2 : existsMatchB mErr2 cs
    · have := subn_count_pos (r := rErr2) mErr2_consumes h2
      simp only [replace_console_statements, e1]
      omega
    · have e2 := @subn_no_match mErr2 rErr2 cs (by simpa using h2)
      by_cases h3 : existsMatchB mErr3 cs
      · have := subn_count_pos (r := rErr3) mErr3_consumes h3
        simp only [replace_console_statements, e1, e2]
        omega
      · have e3 := @subn_no_match mErr3 rErr3 cs (by simpa using h3)
        by_cases h4 : existsMatchB mErr4 cs
        · have := subn_count_pos (r := rErr4) mErr4_consumes h4
          simp only [replace_console_statements, e1, e2, e3]
          omega
        · have e4 := @subn_no_match mErr4 rErr4 cs (by simpa using h4)
          by_cases h5 : existsMatchB mLog5 cs
          · have := subn_count_pos (r := rLog5) mLog5_consumes h5
            simp only [replace_console_statements, e1, e2, e3, e4]
            omega
          · have e5 := @subn_no_match mLog5 rLog5 cs (by simpa using h5)
            by_cases h6 : existsMatchB mLog6 cs
            · have := subn_count_pos (r := rLog6) mLog6_consumes h6
              simp only [replace_console_statements, e1, e2, e3, e4, e5]
              omega
            · have e6 := @subn_no_match mLog6 rLog6 cs (by simpa using h6)
              by_cases h7 : existsMatchB mWarn7 cs
              · have := subn_count_pos (r := rWarn7) mWarn7_consumes h7
                simp only [replace_console_statements, e1, e2, e3, e4, e5, e6]
                omega
              · have e7 := @subn_no_match mWarn7 rWarn7 cs (by simpa using h7)
                by_cases h8 : existsMatchB mWarn8 cs
                · have := subn_count_pos (r := rWarn8) mWarn8_consumes h8
                  simp only [replace_console_statements, e1, e2, e3, e4, e5, e6, e7]
                  omega
                · exfalso
                  have e8 : existsMatchB mWarn8 cs = false := by simpa using h8
                  simp only [hasAnyRuleMatch, Bool.or_eq_true] at h
                  simp [h1, h2, h3, h4, h5, h6, h7, e8] at h

/-- The computed logger path never contains a newline. -/
theorem loggerPath_no_nl (path : Str) : '\n' ∉ loggerPath path := by
  unfold loggerPath
  intro hmem
  rcases List.mem_append.mp hmem with h1 | h2
  · rcases List.mem_flatten.mp h1 with ⟨l, hl, hc⟩
    rw [List.eq_of_mem_replicate hl] at hc
    exact absurd hc (by decide)
  · exact absurd h2 (by decide)

/-- The before/after count deltas of each processed file, in processing
order (threading the filesystem exactly as the loop does). -/
def runDeltas (fs : FS) : List Str → List Int
  | [] => []
  | p :: ps => (processOne fs p).2.2 :: runDeltas (processOne fs p).1 ps

/-- The rule-level substitution counts returned by
`replace_console_statements` for each processed file, in processing order. -/
def runRuleHits (fs : FS) : List Str → List Nat
  | [] => []
  | p :: ps =>
    let c := fs.read p
    let r := replace_console_statements (add_logger_import c p).1
    r.2 :: runRuleHits (fs.write p r.1) ps

/-- The loop's running `total_replacements` equals the initial value plus the
sum of the per-file deltas. -/
theorem foldl_total_eq_deltas :
    ∀ (files : List Str) (fs : FS) (ia : Nat) (tr : Int),
      (files.foldl (fun (acc : FS × Nat × Int) p =>
        let r := processOne acc.1 p
        (r.1, acc.2.1 + (if r.2.1 then 1 else 0), acc.2.2 + r.2.2)) (fs, ia, tr)).2.2 =
      tr + (runDeltas fs files).sum := by
  intro files
  induction files with
  | nil => intro fs ia tr; simp [runDeltas]
  | cons p ps ih =>
    intro fs ia tr
    simp only [List.foldl_cons, runDeltas, List.sum_cons]
    rw [ih]
    omega

end ReplaceConsole

namespace ReplaceConsole

/-- Claim C1 (counterexample): the full per-file rewrite is not idempotent.
On this file (no require line, so the import step never fires) the first
pass converts the outer `console.error('…');` shape, but its replacement
keeps the message verbatim, leaving a fresh `console.error('…');`-shaped
occurrence that the second pass converts: twice differs from once. -/
theorem c1_counterexample :
    processContent
        (processContent (str "console.error('Xconsole.error(');abc');") (str "src/a.js"))
        (str "src/a.js") ≠
      processContent (str "console.error('Xconsole.error(');abc');") (str "src/a.js") := by
  decide

/-- Claim C1 (corrected, amended): the per-file rewrite is idempotent on
every file whose first-pass output still contains the checked logger
reference `require('../../utils/logger')` and no occurrence of `console.`:
the second run inserts no import line and rewrites nothing. -/
theorem c1_amended (content path : Str)
    (hcheck : containsStr checkSq (processContent content path) = true)
    (hnoc : containsStr (str "console.") (processContent content path) = false) :
    processContent (processContent content path) path = processContent content path := by
  have key : ∀ O : Str, containsStr checkSq O = true →
      containsStr (str "console.") O = false → processContent O path = O := by
    intro O h1 h2
    unfold processContent
    rw [add_logger_import_present path (Or.inl h1)]
    exact congrArg Prod.fst (replace_noConsole h2)
  exact key _ hcheck hnoc

/-- Witness for C1 at a depth-two file whose output is fully converted. -/
theorem c1_amended_witness :
    containsStr checkSq
        (processContent (str "const a = require('x');\nconsole.log('hi');")
          (str "src/x/y/f.js")) = true ∧
    containsStr (str "console.")
        (processContent (str "const a = require('x');\nconsole.log('hi');")
          (str "src/x/y/f.js")) = false ∧
    processContent
        (processContent (str "const a = require('x');\nconsole.log('hi');")
          (str "src/x/y/f.js")) (str "src/x/y/f.js") =
      processContent (str "const a = require('x');\nconsole.log('hi');")
        (str "src/x/y/f.js") :=
  ⟨by decide, by decide, c1_amended _ _ (by decide) (by decide)⟩

/-- Claim C2 (counterexample): in the two-file scenario the run does add one
logger reference to file A, but that reference is not
`require('../utils/logger')` as the claim states — `src/a.js` has separator
count 1, hence depth 0. -/
theorem c2_counterexample :
    (main (str "src/a.js\nsrc/deep/b.js")
        ⟨[(str "src/a.js", str "const x = require('y');\nconsole.warn('careful');"),
          (str "src/deep/b.js", str "console.log('ok');")]⟩).importsAdded = 1 ∧
    containsStr (str "require('../utils/logger')")
        ((main (str "src/a.js\nsrc/deep/b.js")
          ⟨[(str "src/a.js", str "const x = require('y');\nconsole.warn('careful');"),
            (str "src/deep/b.js", str "console.log('ok');")]⟩).finalFs.read
          (str "src/a.js")) = false := by
  constructor <;> decide

/-- Claim C2 (corrected, amended): the two-file run reports 2 files
processed, 1 logger import added (file A only), 2 replacements and 0
remaining; file A receives an import of `utils/logger` (the depth heuristic
yields zero `../` segments for `src/a.js`), and file B receives no import
and ends up containing `logger.info('ok');`. -/
theorem c2_amended :
    (main (str "src/a.js\nsrc/deep/b.js")
        ⟨[(str "src/a.js", str "const x = require('y');\nconsole.warn('careful');"),
          (str "src/deep/b.js", str "console.log('ok');")]⟩).filesFound = 2 ∧
    (main (str "src/a.js\nsrc/deep/b.js")
        ⟨[(str "src/a.js", str "const x = require('y');\nconsole.warn('careful');"),
          (str "src/deep/b.js", str "console.log('ok');")]⟩).importsAdded = 1 ∧
    (main (str "src/a.js\nsrc/deep/b.js")
        ⟨[(str "src/a.js", str "const x = require('y');\nconsole.warn('careful');"),
          (str "src/deep/b.js", str "console.log('ok');")]⟩).totalReplacements = 2 ∧
    (main (str "src/a.js\nsrc/deep/b.js")
        ⟨[(str "src/a.js", str "const x = require('y');\nconsole.warn('careful');"),
          (str "src/deep/b.js", str "console.log('ok');")]⟩).remainingFiles = 0 ∧
    (main (str "src/a.js\nsrc/deep/b.js")
        ⟨[(str "src/a.js", str "const x = require('y');\nconsole.warn('careful');"),
          (str "src/deep/b.js", str "console.log('ok');")]⟩).finalFs.read (str "src/a.js") =
      str "const x = require('y');\nconst logger = require('utils/logger');\nlogger.warn('careful');" ∧
    (main (str "src/a.js\nsrc/deep/b.js")
        ⟨[(str "src/a.js", str "const x = require('y');\nconsole.warn('careful');"),
          (str "src/deep/b.js", str "console.log('ok');")]⟩).finalFs.read
        (str "src/deep/b.js") =
      str "logger.info('ok');" := by
  refine ⟨?_, ?_, ?_, ?_, ?_, ?_⟩ <;> decide

/-- Claim C3 (confirmed): if the file text already contains a logger
reference in either quote style, `add_logger_import` returns it unchanged
and signals no import, whatever the file path (hence its depth) and
whatever console calls the text contains. -/
theorem c3_already_referenced (content path : Str)
    (h : containsStr checkSq content = true ∨ containsStr checkDq content = true) :
    add_logger_import content path = (content, false) :=
  add_logger_import_present path h

/-- Witness for C3 on a file full of convertible calls, at an odd depth. -/
theorem c3_already_referenced_witness :
    (containsStr checkSq
        (str "const logger = require('../../utils/logger');\nconsole.log('a');\nconsole.warn('b');") = true ∨
     containsStr checkDq
        (str "const logger = require('../../utils/logger');\nconsole.log('a');\nconsole.warn('b');") = true) ∧
    add_logger_import
        (str "const logger = require('../../utils/logger');\nconsole.log('a');\nconsole.warn('b');")
        (str "src/a/b/c/d.js") =
      (str "const logger = require('../../utils/logger');\nconsole.log('a');\nconsole.warn('b');",
        false) :=
  ⟨Or.inl (by decide), c3_already_referenced _ _ (Or.inl (by decide))⟩

/-- Claim C5 (confirmed): on a file text with no require-declaration line
and at least one convertible call, the import step reports no insertion and
leaves the text unchanged, while the rewrite step still performs at least
one substitution — the processed content is just the rewrite's output. -/
theorem c5_no_require_still_rewrites (content path : Str)
    (hreq : ∀ l ∈ splitOnNl content, isRequireLine l = false)
    (hconv : hasAnyRuleMatch content = true) :
    add_logger_import content path = (content, false) ∧
    processContent content path = (replace_console_statements content).1 ∧
    0 < (replace_console_statements content).2 := by
  have hadd := add_logger_import_noRequire path hreq
  refine ⟨hadd, ?_, replace_count_pos hconv⟩
  unfold processContent
  rw [hadd]

/-- Witness for C5: file B of the end-to-end scenario. -/
theorem c5_no_require_still_rewrites_witness :
    (∀ l ∈ splitOnNl (str "console.log('ok');"), isRequireLine l = false) ∧
    hasAnyRuleMatch (str "console.log('ok');") = true ∧
    (add_logger_import (str "console.log('ok');") (str "src/deep/b.js") =
        (str "console.log('ok');", false) ∧
      processContent (str "console.log('ok');") (str "src/deep/b.js") =
        (replace_console_statements (str "console.log('ok');")).1 ∧
      0 < (replace_console_statements (str "console.log('ok');")).2) :=
  ⟨by decide, by decide, c5_no_require_still_rewrites _ _ (by decide) (by decide)⟩

/-- Claim C6 (confirmed): when the grep invocation fails — it raised, or it
exited nonzero (as with a missing file) — `count_console_statements`
returns 0 and the locator therefore excludes that file from the candidate
list; the bare `except` makes the modelled counter total, so no exception
reaches the caller. -/
theorem c6_failures_swallowed (g : GrepOutcome) (rc : Int) (out : Str)
    (enumOut : Str) (oracle : Str → GrepOutcome) (p : Str)
    (hfail : g = GrepOutcome.raised ∨ (g = GrepOutcome.ran rc out ∧ rc ≠ 0))
    (horacle : oracle p = g) :
    count_console_statements g = 0 ∧
    p ∉ find_files_with_console enumOut (fun q => count_console_statements (oracle q)) := by
  have hzero : count_console_statements g = 0 := by
    rcases hfail with h | ⟨h, hrc⟩
    · rw [h]; rfl
    · rw [h]
      simp [count_console_statements, count_console_raw, hrc]
  refine ⟨hzero, ?_⟩
  intro hmem
  rw [find_files_with_console, List.mem_filter] at hmem
  have := hmem.2
  rw [horacle, hzero] at this
  simp at this

/-- Witness for C6 with exit status 2 (missing file). -/
theorem c6_failures_swallowed_witness :
    (GrepOutcome.ran 2 [] = GrepOutcome.raised ∨
      (GrepOutcome.ran 2 [] = GrepOutcome.ran 2 [] ∧ (2 : Int) ≠ 0)) ∧
    (count_console_statements (GrepOutcome.ran 2 []) = 0 ∧
      (str "src/a.js") ∉ find_files_with_console (str "src/a.js")
        (fun q => count_console_statements ((fun _ => GrepOutcome.ran 2 []) q))) :=
  ⟨Or.inr ⟨rfl, by decide⟩,
    c6_failures_swallowed (GrepOutcome.ran 2 []) 2 [] (str "src/a.js")
      (fun _ => GrepOutcome.ran 2 []) (str "src/a.js") (Or.inr ⟨rfl, by decide⟩) rfl⟩

/-- Claim C8 (counterexample): a call formatted across two lines —
`console.error('m',⏎    error);` — is matched (the `\s*` in the
error-with-identifier pattern accepts newlines) and rewritten, so
"multi-line formatting passes through unchanged" is false. -/
theorem c8_counterexample :
    replace_console_statements (str "console.error('m',\n    error);") =
      (str "logger.error('m', { error: error.message, stack: error.stack });", 1) ∧
    str "console.error('m',\n    error);" ≠
      str "logger.error('m', { error: error.message, stack: error.stack });" := by
  constructor <;> decide

/-- Claim C8 (corrected, amended): when no position of the text matches any
of the eight shapes, `replace_console_statements` returns it unchanged with
count 0; multi-argument calls, computed strings and missing semicolons never
match, but multi-line formatting can match when the line break lies in the
whitespace slot of the error-with-identifier shape. -/
theorem c8_amended (content : Str) (h : hasAnyRuleMatch content = false) :
    replace_console_statements content = (content, 0) := by
  simp only [hasAnyRuleMatch, Bool.or_eq_false_iff] at h
  obtain ⟨⟨⟨⟨⟨⟨⟨h1, h2⟩, h3⟩, h4⟩, h5⟩, h6⟩, h7⟩, h8⟩ := h
  have e1 := @subn_no_match mErr1 rErr1 content h1
  have e2 := @subn_no_match mErr2 rErr2 content h2
  have e3 := @subn_no_match mErr3 rErr3 content h3
  have e4 := @subn_no_match mErr4 rErr4 content h4
  have e5 := @subn_no_match mLog5 rLog5 content h5
  have e6 := @subn_no_match mLog6 rLog6 content h6
  have e7 := @subn_no_match mWarn7 rWarn7 content h7
  have e8 := @subn_no_match mWarn8 rWarn8 content h8
  simp only [replace_console_statements, e1, e2, e3, e4, e5, e6, e7, e8]

/-- Witness for C8: multi-argument, computed-string and missing-semicolon
calls all pass through unchanged. -/
theorem c8_amended_witness :
    hasAnyRuleMatch
        (str "console.log(a, b);\nconsole.log('x' + y);\nconsole.log('z')") = false ∧
    replace_console_statements
        (str "console.log(a, b);\nconsole.log('x' + y);\nconsole.log('z')") =
      (str "console.log(a, b);\nconsole.log('x' + y);\nconsole.log('z')", 0) :=
  ⟨by decide, c8_amended _ (by decide)⟩

/-- Claim C4 (counterexample): this file text contains the statement
`console.error('M', error);` with message `Xconsole.error(`, yet after one
rewrite pass an error-with-identifier match remains in the output (built
from the preserved message and the trailing text), so "no remaining
occurrence" is false. -/
theorem c4_counterexample :
    containsStr (str "console.error('Xconsole.error(', error);")
        (str "console.error('Xconsole.error(', error);',   error);") = true ∧
    existsMatchB mErr1
        ((replace_console_statements
          (str "console.error('Xconsole.error(', error);',   error);")).1) = true := by
  constructor <;> decide

/-- Claim C4 (corrected, amended): for a nonempty quote-free message `M`
not containing `console.`, embedded in context `pre`/`post` not containing
`console.`, one pass rewrites `console.error('M', error);` to
`logger.error('M', { error: error.message, stack: error.stack });` exactly
(replacement count 1), the output contains the structured call, and no
error-with-identifier match of either quote style remains. -/
theorem c4_amended (pre M post : Str)
    (hpre : containsStr (str "console.") pre = false)
    (hM : containsStr (str "console.") M = false)
    (hpost : containsStr (str "console.") post = false)
    (hne : M.isEmpty = false) (hMq : ∀ c ∈ M, (c != '\'') = true) :
    replace_console_statements
        (pre ++ (str "console.error('" ++ M ++ str "', error);") ++ post) =
      (pre ++ rErr1 M ++ post, 1) ∧
    containsStr (rErr1 M) (pre ++ rErr1 M ++ post) = true ∧
    existsMatchB mErr1 (pre ++ rErr1 M ++ post) = false ∧
    existsMatchB mErr2 (pre ++ rErr1 M ++ post) = false := by
  have hform : pre ++ (str "console.error('" ++ M ++ str "', error);") ++ post =
      pre ++ (str "console.error('" ++ (M ++ ('\'' :: (str ", error);" ++ post)))) := by
    rw [show str "', error);" = '\'' :: str ", error);" from rfl]
    simp [List.append_assoc]
  have hrep := replace_c4 hpre hM hpost hne hMq
  have hout : containsStr (str "console.") (pre ++ rErr1 M ++ post) = false := by
    have := output_noConsole hpre hM hpost
    rw [rErr1_decomp]
    simp only [List.append_assoc]
    simpa [List.append_assoc] using this
  refine ⟨?_, containsStr_mid (rErr1 M) pre post, ?_, ?_⟩
  · rw [hform, hrep, ← List.append_assoc]
  · exact existsMatchB_false_of_noConsole mErr1_anchored hout
  · exact existsMatchB_false_of_noConsole mErr2_anchored hout

/-- Witness for C4 with message `boom` between two statement lines. -/
theorem c4_amended_witness :
    containsStr (str "console.") (str "x = 1;\n") = false ∧
    containsStr (str "console.") (str "boom") = false ∧
    containsStr (str "console.") (str "\ny = 2;") = false ∧
    (str "boom").isEmpty = false ∧
    (∀ c ∈ str "boom", (c != '\'') = true) ∧
    (replace_console_statements
        (str "x = 1;\n" ++ (str "console.error('" ++ str "boom" ++ str "', error);") ++
          str "\ny = 2;") =
      (str "x = 1;\n" ++ rErr1 (str "boom") ++ str "\ny = 2;", 1) ∧
    containsStr (rErr1 (str "boom"))
        (str "x = 1;\n" ++ rErr1 (str "boom") ++ str "\ny = 2;") = true ∧
    existsMatchB mErr1 (str "x = 1;\n" ++ rErr1 (str "boom") ++ str "\ny = 2;") = false ∧
    existsMatchB mErr2 (str "x = 1;\n" ++ rErr1 (str "boom") ++ str "\ny = 2;") = false) :=
  ⟨by decide, by decide, by decide, by decide, by decide,
    c4_amended _ _ _ (by decide) (by decide) (by decide) (by decide) (by decide)⟩

/-- Claim C7 (confirmed): the reported run total equals the sum over
processed files of the before-minus-after external line-pattern counts, and
it is not the rule-level substitution total: a one-line file with two
convertible calls contributes delta 1 but rule count 2. -/
theorem c7_total_is_delta_sum :
    (∀ (enumOut : Str) (fs0 : FS),
      (main enumOut fs0).totalReplacements =
        (runDeltas fs0 (find_files_with_console enumOut
          (fun p => (countConsoleLines (fs0.read p) : Int)))).sum) ∧
    (main (str "src/e.js")
        ⟨[(str "src/e.js", str "console.log('a'); console.log('b');")]⟩).totalReplacements
      = 1 ∧
    (runRuleHits ⟨[(str "src/e.js", str "console.log('a'); console.log('b');")]⟩
        [str "src/e.js"]).sum = 2 := by
  refine ⟨?_, by decide, by decide⟩
  intro enumOut fs0
  show (main enumOut fs0).totalReplacements = _
  unfold main
  simp only []
  have := foldl_total_eq_deltas (find_files_with_console enumOut
    (fun p => (countConsoleLines (fs0.read p) : Int))) fs0 0 0
  simpa using this

/-- Claim C9 (confirmed): whenever `add_logger_import` reports an insertion,
the result is the original text with exactly the one line
`const logger = require('<loggerPath>');` (newline-free) spliced in directly
after the end of the last require-declaration line: the preserved prefix
ends with a require line, and the preserved suffix contains none. -/
theorem c9_insert_frame (content path newC : Str)
    (h : add_logger_import content path = (newC, true)) :
    ∃ pre post,
      content = pre ++ post ∧
      newC = pre ++
        ('\n' :: (str "const logger = require('" ++ loggerPath path ++ str "');")) ++ post ∧
      '\n' ∉ str "const logger = require('" ++ loggerPath path ++ str "');" ∧
      (∃ ls llast, splitOnNl pre = ls ++ [llast] ∧ isRequireLine llast = true) ∧
      (∀ l ∈ splitOnNl post, isRequireLine l = false) := by
  have hnl : '\n' ∉ str "const logger = require('" ++ loggerPath path ++ str "');" := by
    intro hmem
    rcases List.mem_append.mp hmem with h1 | h2
    · rcases List.mem_append.mp h1 with h3 | h4
      · exact absurd h3 (by decide)
      · exact loggerPath_no_nl path h4
    · exact absurd h2 (by decide)
  unfold add_logger_import at h
  by_cases hc : containsStr checkSq content || containsStr checkDq content
  · rw [if_pos hc] at h
    exact absurd (congrArg Prod.snd h) (by simp)
  · rw [if_neg hc] at h
    cases hidx : lastRequireIdx (splitOnNl content) with
    | none =>
      simp only [hidx] at h
      exact absurd (congrArg Prod.snd h) (by simp)
    | some i =>
      simp only [hidx, Prod.mk.injEq] at h
      obtain ⟨hnewC, _⟩ := h
      obtain ⟨hilen, hireq, hidrop⟩ := lastRequireIdx_spec (splitOnNl content) i hidx
      have hAne : (splitOnNl content).take (i + 1) ≠ [] := by
        intro hcon
        have hlen := congrArg List.length hcon
        rw [List.length_take] at hlen
        simp only [List.length_nil] at hlen
        omega
      have hAnl : ∀ l ∈ (splitOnNl content).take (i + 1), '\n' ∉ l :=
        fun l hl => mem_splitOnNl_no_nl content l (List.take_subset _ _ hl)
      have hBnl : ∀ l ∈ (splitOnNl content).drop (i + 1), '\n' ∉ l :=
        fun l hl => mem_splitOnNl_no_nl content l (List.drop_subset _ _ hl)
      have hcontent : content =
          joinNl ((splitOnNl content).take (i + 1) ++ (splitOnNl content).drop (i + 1)) := by
        rw [List.take_append_drop]
        exact (joinNl_splitOnNl content).symm
      have hsplitpre : splitOnNl (joinNl ((splitOnNl content).take (i + 1))) =
          (splitOnNl content).take (i + 1) :=
        splitOnNl_joinNl _ hAne hAnl
      have hlast : ∃ ls llast,
          splitOnNl (joinNl ((splitOnNl content).take (i + 1))) = ls ++ [llast] ∧
            isRequireLine llast = true := by
        rw [hsplitpre]
        exact ⟨(splitOnNl content).take i, (splitOnNl content).getD i [],
          take_succ_getD _ i hilen, hireq⟩
      cases hB : (splitOnNl content).drop (i + 1) with
      | nil =>
        rw [hB, List.append_nil] at hcontent
        refine ⟨joinNl ((splitOnNl content).take (i + 1)), [], ?_, ?_, hnl, hlast, ?_⟩
        · rw [List.append_nil]
          exact hcontent
        · rw [← hnewC, hB, List.append_nil,
            joinNl_append_of_ne_nil hAne (by simp)]
          have hjoin1 : joinNl [str "const logger = require('" ++ loggerPath path ++
              str "');"] = str "const logger = require('" ++ loggerPath path ++
              str "');" := rfl
          rw [hjoin1]
        · intro l hl
          simp only [splitOnNl, List.mem_singleton] at hl
          subst hl
          decide
      | cons b bs =>
        rw [hB, joinNl_append_of_ne_nil hAne (by simp)] at hcontent
        refine ⟨joinNl ((splitOnNl content).take (i + 1)),
          '\n' :: joinNl (b :: bs), ?_, ?_, hnl, hlast, ?_⟩
        · exact hcontent
        · have hjoin2 : joinNl ((str "const logger = require('" ++ loggerPath path ++
              str "');") :: b :: bs) = (str "const logger = require('" ++
              loggerPath path ++ str "');") ++ '\n' :: joinNl (b :: bs) := rfl
          rw [← hnewC, hB, joinNl_append_of_ne_nil hAne (by simp), hjoin2]
          simp [List.append_assoc]
        · intro l hl
          have hsplit : splitOnNl ('\n' :: joinNl (b :: bs)) =
              [] :: splitOnNl (joinNl (b :: bs)) := by
            simp [splitOnNl]
          rw [hsplit, splitOnNl_joinNl (b :: bs) (by simp) (hB ▸ hBnl)] at hl
          rcases List.mem_cons.mp hl with h1 | h2
          · subst h1; decide
          · exact hidrop l (hB ▸ h2)

/-- Witness for C9 on a one-require-line file at depth one. -/
theorem c9_insert_frame_witness :
    add_logger_import (str "const a = require('b');\nconsole.log('x');")
        (str "src/util/f.js") =
      (str "const a = require('b');\nconst logger = require('../utils/logger');\nconsole.log('x');",
        true) ∧
    (∃ pre post,
      str "const a = require('b');\nconsole.log('x');" = pre ++ post ∧
      str "const a = require('b');\nconst logger = require('../utils/logger');\nconsole.log('x');" =
        pre ++ ('\n' :: (str "const logger = require('" ++ loggerPath (str "src/util/f.js") ++
          str "');")) ++ post ∧
      '\n' ∉ str "const logger = require('" ++ loggerPath (str "src/util/f.js") ++ str "');" ∧
      (∃ ls llast, splitOnNl pre = ls ++ [llast] ∧ isRequireLine llast = true) ∧
      (∀ l ∈ splitOnNl post, isRequireLine l = false)) :=
  ⟨by decide, c9_insert_frame _ _ _ (by decide)⟩

/-- Claim C10 (confirmed): when the enumeration produces empty output,
`find_files_with_console` returns the empty list for every count oracle —
splitting the empty string yields only the empty path, which the
truthiness filter discards before any counting. -/
theorem c10_empty_enumeration (countOf : Str → Int) :
    find_files_with_console [] countOf = [] := by
  simp [find_files_with_console, pyStrip, splitOnNl]

end ReplaceConsole
